import Mathlib

/-!
Verification of the grid-accelerated N-body simulation pipeline.

The development shallowly embeds the three OpenCL kernels of
kernels/GLinterop.cl (computeParticleCellIndex, computeCellCOM, update)
and the relevant host-side orchestration of MyApp (grid configuration,
dispatch sizes, delta-time clamping, simulation reset). Scalars of the
device code (float) are modelled as exact rationals; the reciprocal
square root, which has no exact rational counterpart, is passed in as an
uninterpreted function parameter wherever a kernel uses it, so every
algebraic and structural property proved here is independent of its value.
-/

namespace NBody

/-- Rational model of the float3 vector type used by the kernels. -/
structure Vec3 where
  x : ℚ
  y : ℚ
  z : ℚ
deriving DecidableEq

theorem Vec3.ext_comp {a b : Vec3} (hx : a.x = b.x) (hy : a.y = b.y)
    (hz : a.z = b.z) : a = b := by
  cases a; cases b; simp_all

instance : Zero Vec3 := ⟨⟨0, 0, 0⟩⟩
instance : Add Vec3 := ⟨fun a b => ⟨a.x + b.x, a.y + b.y, a.z + b.z⟩⟩
instance : Sub Vec3 := ⟨fun a b => ⟨a.x - b.x, a.y - b.y, a.z - b.z⟩⟩

instance : AddCommMonoid Vec3 where
  add := (· + ·)
  zero := 0
  add_assoc a b c := Vec3.ext_comp (add_assoc a.x b.x c.x) (add_assoc a.y b.y c.y) (add_assoc a.z b.z c.z)
  zero_add a := Vec3.ext_comp (zero_add a.x) (zero_add a.y) (zero_add a.z)
  add_zero a := Vec3.ext_comp (add_zero a.x) (add_zero a.y) (add_zero a.z)
  add_comm a b := Vec3.ext_comp (add_comm a.x b.x) (add_comm a.y b.y) (add_comm a.z b.z)
  nsmul := nsmulRec
  nsmul_zero _ := rfl
  nsmul_succ _ _ := rfl

/-- Componentwise scaling, modelling float3 * scalar. -/
def Vec3.scale (s : ℚ) (v : Vec3) : Vec3 := ⟨s * v.x, s * v.y, s * v.z⟩

@[simp] theorem Vec3.add_x (a b : Vec3) : (a + b).x = a.x + b.x := rfl
@[simp] theorem Vec3.add_y (a b : Vec3) : (a + b).y = a.y + b.y := rfl
@[simp] theorem Vec3.add_z (a b : Vec3) : (a + b).z = a.z + b.z := rfl
@[simp] theorem Vec3.sub_x (a b : Vec3) : (a - b).x = a.x - b.x := rfl
@[simp] theorem Vec3.sub_y (a b : Vec3) : (a - b).y = a.y - b.y := rfl
@[simp] theorem Vec3.sub_z (a b : Vec3) : (a - b).z = a.z - b.z := rfl
@[simp] theorem Vec3.zero_x : (0 : Vec3).x = 0 := rfl
@[simp] theorem Vec3.zero_y : (0 : Vec3).y = 0 := rfl
@[simp] theorem Vec3.zero_z : (0 : Vec3).z = 0 := rfl
@[simp] theorem Vec3.scale_x (s : ℚ) (v : Vec3) : (Vec3.scale s v).x = s * v.x := rfl
@[simp] theorem Vec3.scale_y (s : ℚ) (v : Vec3) : (Vec3.scale s v).y = s * v.y := rfl
@[simp] theorem Vec3.scale_z (s : ℚ) (v : Vec3) : (Vec3.scale s v).z = s * v.z := rfl

/-- Softening constant of the update kernel (GLinterop.cl line 207,
0.001f). -/
def softening : ℚ := 1 / 1000

/-- Branchless absolute value as written in the update kernel
(GLinterop.cl lines 240 to 242: conditional negation of an int). -/
def intAbs (d : ℤ) : ℤ := if d < 0 then -d else d

/-- Neighborhood test of the update kernel, exactly as the code decodes
flattened cell indices (GLinterop.cl lines 219 to 246 and 278 to 291):
cellX = index mod gridNx, cellY = index div gridNx (with no reduction
modulo gridNy), cellZ = (index div gridNx) div gridNy, then Chebyshev
distance at most 1 on each decoded axis. -/
def nearCond (gridNx gridNy myCellIndex otherCellIndex : ℕ) : Bool :=
  let myCellX : ℤ := (myCellIndex % gridNx : ℕ)
  let myCellY : ℤ := (myCellIndex / gridNx : ℕ)
  let myCellZ : ℤ := (myCellIndex / gridNx / gridNy : ℕ)
  let otherCellX : ℤ := (otherCellIndex % gridNx : ℕ)
  let otherCellY : ℤ := (otherCellIndex / gridNx : ℕ)
  let otherCellZ : ℤ := (otherCellIndex / gridNx / gridNy : ℕ)
  let dxCell := intAbs (otherCellX - myCellX)
  let dyCell := intAbs (otherCellY - myCellY)
  let dzCell := intAbs (otherCellZ - myCellZ)
  decide (dxCell ≤ 1) && decide (dyCell ≤ 1) && decide (dzCell ≤ 1)

/-- Modelled from the spec: the decode the specification states for the
update kernel, x = index mod Nx, y = (index div Nx) mod Ny,
z = index div (Nx times Ny), with the Chebyshev distance at most 1 on
every axis (same cell or one of the 26 adjacent cells). This definition
follows the words of the spec and of claim C1, for comparison with
nearCond, which is translated from the code. -/
def specDecodeNear (gridNx gridNy myCellIndex otherCellIndex : ℕ) : Bool :=
  let myCellX : ℤ := (myCellIndex % gridNx : ℕ)
  let myCellY : ℤ := (myCellIndex / gridNx % gridNy : ℕ)
  let myCellZ : ℤ := (myCellIndex / (gridNx * gridNy) : ℕ)
  let otherCellX : ℤ := (otherCellIndex % gridNx : ℕ)
  let otherCellY : ℤ := (otherCellIndex / gridNx % gridNy : ℕ)
  let otherCellZ : ℤ := (otherCellIndex / (gridNx * gridNy) : ℕ)
  decide (intAbs (otherCellX - myCellX) ≤ 1) &&
  decide (intAbs (otherCellY - myCellY) ≤ 1) &&
  decide (intAbs (otherCellZ - myCellZ) ≤ 1)

/-- Squared separation with softening, shared verbatim by the near-field
pass (GLinterop.cl lines 254 to 257) and the far-field pass (lines 302
to 305): dot of the difference vector with itself plus the softening
constant. -/
def distanceSquared (v : Vec3) : ℚ :=
  v.x * v.x + v.y * v.y + v.z * v.z + softening

/-- Exact pairwise acceleration contribution of one other particle
(GLinterop.cl lines 248 to 268). invSqrt stands for the float rsqrt. -/
def nearContrib (invSqrt : ℚ → ℚ) (G : ℚ) (position otherPos : Vec3)
    (otherMass : ℚ) : Vec3 :=
  let vectorToOther := otherPos - position
  let dsq := distanceSquared vectorToOther
  let invDist := invSqrt dsq
  let invDistCube := invDist * invDist * invDist
  Vec3.scale (G * otherMass * invDistCube) vectorToOther

/-- Near-field pass of the update kernel (GLinterop.cl lines 227 to 270):
loop over every particle, skip self, and accumulate the exact
contribution of every other particle whose cell passes nearCond. -/
def nearFieldAcceleration (invSqrt : ℚ → ℚ) (G : ℚ)
    (numParticles gridNx gridNy : ℕ) (posArr : ℕ → Vec3)
    (massArr : ℕ → ℚ) (cellIdxArr : ℕ → ℕ) (particleId : ℕ) : Vec3 :=
  ∑ otherId ∈ Finset.range numParticles,
    if otherId = particleId then 0
    else if nearCond gridNx gridNy (cellIdxArr particleId) (cellIdxArr otherId) then
      nearContrib invSqrt G (posArr particleId) (posArr otherId) (massArr otherId)
    else 0

/-- One far-field cell contribution (GLinterop.cl lines 274 to 313):
empty cells (mass at most 0) are skipped, cells passing nearCond are
skipped, and only in the remaining branch is the stored mass-weighted
position sum divided by the cell mass to form the center of mass. -/
def farTerm (invSqrt : ℚ → ℚ) (G : ℚ) (gridNx gridNy : ℕ)
    (cellMassArr : ℕ → ℚ) (cellCOMArr : ℕ → Vec3) (myCellIndex : ℕ)
    (position : Vec3) (cellIndex : ℕ) : Vec3 :=
  let cellMassValue := cellMassArr cellIndex
  if cellMassValue ≤ 0 then 0
  else if nearCond gridNx gridNy myCellIndex cellIndex then 0
  else
    let h := cellCOMArr cellIndex
    let cellCOMPosition : Vec3 :=
      ⟨h.x / cellMassValue, h.y / cellMassValue, h.z / cellMassValue⟩
    let direction := cellCOMPosition - position
    let dsq := distanceSquared direction
    let invDistance := invSqrt dsq
    let invDistanceCubed := invDistance * invDistance * invDistance
    Vec3.scale (G * cellMassValue * invDistanceCubed) direction

/-- Whether the far-field loop of the update kernel reaches the monopole
accumulation for a given cell: the cell is neither empty (mass at most
0, skipped at GLinterop.cl line 276) nor inside the nearCond
neighborhood (skipped at line 291). -/
def farProcessed (cellMassArr : ℕ → ℚ) (gridNx gridNy myCellIndex cellIndex : ℕ) : Bool :=
  !(decide (cellMassArr cellIndex ≤ 0)) && !(nearCond gridNx gridNy myCellIndex cellIndex)

/-- Far-field pass of the update kernel: sum of farTerm over all cells. -/
def farFieldAcceleration (invSqrt : ℚ → ℚ) (G : ℚ)
    (totalCells gridNx gridNy : ℕ) (cellMassArr : ℕ → ℚ)
    (cellCOMArr : ℕ → Vec3) (myCellIndex : ℕ) (position : Vec3) : Vec3 :=
  ∑ cellIndex ∈ Finset.range totalCells,
    farTerm invSqrt G gridNx gridNy cellMassArr cellCOMArr myCellIndex position cellIndex

/-- Demonstration positions used to evaluate the update kernel embedding
at a concrete input: particle 0 at the origin, particle 1 at unit
distance on the x axis. -/
def demoPos : ℕ → Vec3 := fun i => if i = 0 then ⟨0, 0, 0⟩ else ⟨1, 0, 0⟩

/-- Demonstration masses: every particle has mass 1. -/
def demoMass : ℕ → ℚ := fun _ => 1

/-- Demonstration cell indices on the host grid (32 cells per axis):
particle 0 sits in cell (0,0,0), flattened index 0, and particle 1 in
cell (0,1,1), flattened index 1 * 32 + 1 * 32 * 32 = 1056. -/
def demoCells : ℕ → ℕ := fun i => if i = 0 then 0 else 1056

/-- C1: the update kernel decodes the y cell coordinate as index div
gridNx without reducing modulo gridNy (GLinterop.cl lines 221 and 234),
so on the 32x32x32 host grid the cell (0,1,1), flattened index 1056, is
a Chebyshev-1 neighbor of cell (0,0,0) under the decode the claim states
yet fails the test the code runs, and its particle is omitted from the
near-field sum even though its exact contribution would be nonzero;
conversely the wrap-around pair of cells (0,31,0), index 992, and
(0,0,1), index 1024, is not a neighbor under the claimed decode yet
passes the test the code runs. -/
theorem near_decode_drops_adjacent_layer :
    specDecodeNear 32 32 0 1056 = true
    ∧ nearCond 32 32 0 1056 = false
    ∧ specDecodeNear 32 32 992 1024 = false
    ∧ nearCond 32 32 992 1024 = true
    ∧ nearFieldAcceleration (fun _ => 1) 1 2 32 32 demoPos demoMass demoCells 0 = 0
    ∧ nearContrib (fun _ => 1) 1 (demoPos 0) (demoPos 1) (demoMass 1) ≠ 0 := by
  refine ⟨by decide, by decide, by decide, by decide, ?_, ?_⟩
  · show (∑ otherId ∈ Finset.range 2, _) = (0 : Vec3)
    rw [Finset.sum_range_succ, Finset.sum_range_succ, Finset.sum_range_zero]
    norm_num [demoCells, nearCond, intAbs]
  · intro h
    have hx := congrArg Vec3.x h
    norm_num [nearContrib, distanceSquared, demoPos, demoMass, Vec3.scale] at hx

/-- Strided per-thread accumulation of the computeCellCOM kernel
(GLinterop.cl line 111: particleId runs from localId to numParticles in
steps of localSize). stridedSum f step n i sums f over i, i + step,
i + 2 step, ... below n. -/
def stridedSum (f : ℕ → ℚ) (step n i : ℕ) : ℚ :=
  if h : 0 < step ∧ i < n then f i + stridedSum f step n (i + step) else 0
termination_by n - i
decreasing_by omega

/-- One halving step of the local reduction (GLinterop.cl lines 134 to
141): each slot below the offset absorbs the slot one offset above. -/
def reduceStep (a : ℕ → ℚ) (offset : ℕ) : ℕ → ℚ :=
  fun localId => if localId < offset then a localId + a (localId + offset) else a localId

/-- The halving loop of the local reduction: offsets offset,
offset / 2, ..., 1. -/
def reduceLoop (a : ℕ → ℚ) (offset : ℕ) : ℕ → ℚ :=
  if h : 0 < offset then reduceLoop (reduceStep a offset) (offset / 2) else a
termination_by offset
decreasing_by omega

theorem stridedSum_of_le (f : ℕ → ℚ) (step n i : ℕ) (h : n ≤ i) :
    stridedSum f step n i = 0 := by
  rw [stridedSum, dif_neg]
  omega

theorem stridedSum_succ (f : ℕ → ℚ) (step : ℕ) (hstep : 0 < step) (n i : ℕ) :
    stridedSum f step n (i) =
      if i < n then f i + stridedSum f step n (i + step) else 0 := by
  rw [stridedSum]
  by_cases h : i < n
  · rw [dif_pos ⟨hstep, h⟩, if_pos h]
  · rw [dif_neg (by omega), if_neg h]

theorem stridedSum_expand (f : ℕ → ℚ) (step : ℕ) (hstep : 0 < step) :
    ∀ (m n i : ℕ), n - i ≤ m →
      stridedSum f step (n + 1) i =
        stridedSum f step n i + if i ≤ n ∧ (n - i) % step = 0 then f n else 0 := by
  intro m
  induction m with
  | zero =>
    intro n i hm
    by_cases hin : i = n
    · subst hin
      rw [stridedSum_succ f step hstep, if_pos (by omega),
        stridedSum_of_le f step (i + 1) (i + step) (by omega),
        stridedSum_of_le f step i i (by omega),
        if_pos ⟨le_rfl, by rw [Nat.sub_self, Nat.zero_mod]⟩]
      ring
    · have hgt : n < i := by omega
      rw [stridedSum_of_le f step (n + 1) i (by omega),
        stridedSum_of_le f step n i (by omega), if_neg (by omega)]
      ring
  | succ m ih =>
    intro n i hm
    by_cases hle : n ≤ i
    · by_cases hin : i = n
      · subst hin
        rw [stridedSum_succ f step hstep, if_pos (by omega),
          stridedSum_of_le f step (i + 1) (i + step) (by omega),
          stridedSum_of_le f step i i (by omega),
        if_pos ⟨le_rfl, by rw [Nat.sub_self, Nat.zero_mod]⟩]
        ring
      · rw [stridedSum_of_le f step (n + 1) i (by omega),
          stridedSum_of_le f step n i (by omega), if_neg (by omega)]
        ring
    · have hlt : i < n := by omega
      rw [stridedSum_succ f step hstep (n + 1) i, if_pos (by omega),
        stridedSum_succ f step hstep n i, if_pos hlt,
        ih n (i + step) (by omega)]
      have hcond : (i + step ≤ n ∧ (n - (i + step)) % step = 0) ↔
          (i ≤ n ∧ (n - i) % step = 0) := by
        constructor
        · rintro ⟨h1, h2⟩
          refine ⟨by omega, ?_⟩
          have he : n - i = n - (i + step) + step := by omega
          rw [he, Nat.add_mod_right, h2]
        · rintro ⟨_, h2⟩
          have hdvd : step ∣ n - i := Nat.dvd_of_mod_eq_zero h2
          have hge : step ≤ n - i := Nat.le_of_dvd (by omega) hdvd
          refine ⟨by omega, ?_⟩
          have he : n - (i + step) + step = n - i := by omega
          calc (n - (i + step)) % step
              = (n - (i + step) + step) % step := (Nat.add_mod_right _ _).symm
            _ = (n - i) % step := by rw [he]
            _ = 0 := h2
      by_cases hc : i ≤ n ∧ (n - i) % step = 0
      · rw [if_pos hc, if_pos (hcond.mpr hc)]
        ring
      · rw [if_neg hc, if_neg (fun hh => hc (hcond.mp hh))]
        ring

/-- The per-thread strided sums over all residues below the stride add up
to the plain sequential sum: each index below n is visited by exactly
one thread. -/
theorem sum_stridedSum (f : ℕ → ℚ) (step : ℕ) (hstep : 0 < step) (n : ℕ) :
    ∑ j ∈ Finset.range step, stridedSum f step n j = ∑ i ∈ Finset.range n, f i := by
  induction n with
  | zero =>
    rw [Finset.sum_range_zero]
    exact Finset.sum_eq_zero fun j _ => stridedSum_of_le f step 0 j (by omega)
  | succ n ih =>
    have hexp : ∀ j ∈ Finset.range step,
        stridedSum f step (n + 1) j =
          stridedSum f step n j + if j ≤ n ∧ (n - j) % step = 0 then f n else 0 :=
      fun j _ => stridedSum_expand f step hstep (n - j) n j le_rfl
    rw [Finset.sum_congr rfl hexp, Finset.sum_add_distrib, ih,
      Finset.sum_range_succ]
    congr 1
    have huniq : ∀ j ∈ Finset.range step, j ≠ n % step →
        (if j ≤ n ∧ (n - j) % step = 0 then f n else 0) = 0 := by
      intro j hj hne
      rw [if_neg]
      rintro ⟨h1, h2⟩
      apply hne
      have hdvd : step ∣ n - j := Nat.dvd_of_mod_eq_zero h2
      obtain ⟨t, ht⟩ := hdvd
      have hn : n = j + step * t := by omega
      have : n % step = j % step := by
        rw [hn, Nat.add_mul_mod_self_left]
      rw [Nat.mod_eq_of_lt (Finset.mem_range.mp hj)] at this
      omega
    rw [Finset.sum_eq_single_of_mem (n % step) (Finset.mem_range.mpr (Nat.mod_lt n hstep)) huniq,
      if_pos]
    refine ⟨Nat.mod_le n step, ?_⟩
    have hqr : step * (n / step) + n % step = n := Nat.div_add_mod n step
    have he : n - n % step = step * (n / step) := by omega
    rw [he, Nat.mul_mod_right]

/-- The halving reduction started at half a power of two computes, in
slot 0, the sum of the first 2 ^ k slots. -/
theorem reduceLoop_pow (k : ℕ) : ∀ a : ℕ → ℚ,
    reduceLoop a (2 ^ k / 2) 0 = ∑ i ∈ Finset.range (2 ^ k), a i := by
  induction k with
  | zero =>
    intro a
    rw [reduceLoop]
    norm_num
  | succ k ih =>
    intro a
    have h2 : 2 ^ (k + 1) / 2 = 2 ^ k := by
      rw [pow_succ]
      exact Nat.mul_div_cancel _ (by norm_num)
    rw [h2, reduceLoop, dif_pos (Nat.pos_pow_of_pos k (by norm_num) : 0 < 2 ^ k), ih]
    have hsplit : ∀ i ∈ Finset.range (2 ^ k),
        reduceStep a (2 ^ k) i = a i + a (i + 2 ^ k) := by
      intro i hi
      exact if_pos (Finset.mem_range.mp hi)
    rw [Finset.sum_congr rfl hsplit, Finset.sum_add_distrib]
    have hp : 2 ^ (k + 1) = 2 ^ k + 2 ^ k := by
      rw [pow_succ]
      omega
    rw [hp, Finset.sum_range_add]
    congr 1
    exact Finset.sum_congr rfl fun i _ => by rw [Nat.add_comm]

/-- Total cell mass computed by the computeCellCOM kernel for one cell
(GLinterop.cl lines 81 to 155): per-thread strided accumulation of the
masses of the particles assigned to the cell, followed by the local
halving reduction, read from slot 0. -/
def computeCellCOM_cellMass (massArr : ℕ → ℚ) (cellIdxArr : ℕ → ℕ)
    (numParticles localSize cellId : ℕ) : ℚ :=
  reduceLoop
    (fun localId => stridedSum
      (fun particleId => if cellIdxArr particleId = cellId then massArr particleId else 0)
      localSize numParticles localId)
    (localSize / 2) 0

/-- Mass-weighted position sum computed by the computeCellCOM kernel for
one cell: the same strided accumulation and reduction, run on each
component of mass times position. -/
def computeCellCOM_cellCOM (posArr : ℕ → Vec3) (massArr : ℕ → ℚ)
    (cellIdxArr : ℕ → ℕ) (numParticles localSize cellId : ℕ) : Vec3 :=
  ⟨reduceLoop
      (fun localId => stridedSum
        (fun particleId => if cellIdxArr particleId = cellId then (posArr particleId).x * massArr particleId else 0)
        localSize numParticles localId)
      (localSize / 2) 0,
   reduceLoop
      (fun localId => stridedSum
        (fun particleId => if cellIdxArr particleId = cellId then (posArr particleId).y * massArr particleId else 0)
        localSize numParticles localId)
      (localSize / 2) 0,
   reduceLoop
      (fun localId => stridedSum
        (fun particleId => if cellIdxArr particleId = cellId then (posArr particleId).z * massArr particleId else 0)
        localSize numParticles localId)
      (localSize / 2) 0⟩

/-- Aggregation result for one scalar accumulator: with a power-of-two
work-group size the strided sums plus halving reduction equal the
sequential sum. -/
theorem aggregation_eq_sum (f : ℕ → ℚ) (numParticles localSize k : ℕ)
    (hpow : localSize = 2 ^ k) :
    reduceLoop (fun localId => stridedSum f localSize numParticles localId)
      (localSize / 2) 0 = ∑ i ∈ Finset.range numParticles, f i := by
  subst hpow
  rw [reduceLoop_pow k]
  exact sum_stridedSum f (2 ^ k) (Nat.pos_pow_of_pos k (by norm_num)) numParticles

/-- C3: for every cell below totalCells, with a power-of-two work-group
size, the computeCellCOM kernel writes as cell mass the sum of the
masses of exactly the particles whose cell index equals the cell, and as
cell COM the sum of mass times position of exactly those particles,
equal to the sequential reference computation. -/
theorem computeCellCOM_matches_reference
    (posArr : ℕ → Vec3) (massArr : ℕ → ℚ) (cellIdxArr : ℕ → ℕ)
    (numParticles totalCells localSize k cellId : ℕ)
    (hpow : localSize = 2 ^ k) (hcell : cellId < totalCells) :
    computeCellCOM_cellMass massArr cellIdxArr numParticles localSize cellId
      = ∑ i ∈ Finset.range numParticles, (if cellIdxArr i = cellId then massArr i else 0)
    ∧ (computeCellCOM_cellCOM posArr massArr cellIdxArr numParticles localSize cellId).x
      = ∑ i ∈ Finset.range numParticles,
          (if cellIdxArr i = cellId then (posArr i).x * massArr i else 0)
    ∧ (computeCellCOM_cellCOM posArr massArr cellIdxArr numParticles localSize cellId).y
      = ∑ i ∈ Finset.range numParticles,
          (if cellIdxArr i = cellId then (posArr i).y * massArr i else 0)
    ∧ (computeCellCOM_cellCOM posArr massArr cellIdxArr numParticles localSize cellId).z
      = ∑ i ∈ Finset.range numParticles,
          (if cellIdxArr i = cellId then (posArr i).z * massArr i else 0) :=
  ⟨aggregation_eq_sum _ numParticles localSize k hpow,
   aggregation_eq_sum _ numParticles localSize k hpow,
   aggregation_eq_sum _ numParticles localSize k hpow,
   aggregation_eq_sum _ numParticles localSize k hpow⟩

/-- Witness for C3 at a concrete input: three particles with masses
1, 2, 3 at distinct positions, assigned alternately to cells 0 and 1 of
an 8-cell grid, aggregated by a work-group of 4 threads. -/
theorem computeCellCOM_matches_reference_witness :
    computeCellCOM_cellMass (fun i => (i : ℚ) + 1) (fun i => i % 2) 3 4 1
      = ∑ i ∈ Finset.range 3, (if i % 2 = 1 then (i : ℚ) + 1 else 0)
    ∧ (computeCellCOM_cellCOM (fun i => ⟨(i : ℚ), 1, 2⟩) (fun i => (i : ℚ) + 1) (fun i => i % 2) 3 4 1).x
      = ∑ i ∈ Finset.range 3,
          (if i % 2 = 1 then ((⟨(i : ℚ), 1, 2⟩ : Vec3)).x * ((i : ℚ) + 1) else 0)
    ∧ (computeCellCOM_cellCOM (fun i => ⟨(i : ℚ), 1, 2⟩) (fun i => (i : ℚ) + 1) (fun i => i % 2) 3 4 1).y
      = ∑ i ∈ Finset.range 3,
          (if i % 2 = 1 then ((⟨(i : ℚ), 1, 2⟩ : Vec3)).y * ((i : ℚ) + 1) else 0)
    ∧ (computeCellCOM_cellCOM (fun i => ⟨(i : ℚ), 1, 2⟩) (fun i => (i : ℚ) + 1) (fun i => i % 2) 3 4 1).z
      = ∑ i ∈ Finset.range 3,
          (if i % 2 = 1 then ((⟨(i : ℚ), 1, 2⟩ : Vec3)).z * ((i : ℚ) + 1) else 0) :=
  computeCellCOM_matches_reference (fun i => ⟨(i : ℚ), 1, 2⟩) (fun i => (i : ℚ) + 1)
    (fun i => i % 2) 3 8 4 2 1 (by norm_num) (by norm_num)

/-- C2: with strictly positive masses and the per-cell aggregates
produced by the aggregation stage from the current cell indices, every
other particle q is accounted for exactly once by one execution of the
update kernel for p: its cell passes the kernel near test (and then its
cell is skipped by the far pass), or it fails the near test and its
cell, whose aggregate mass includes the mass of q and is therefore
positive, is processed by the far pass — never both and never neither.
The cell of q also lies inside the range the far loop iterates over, and
whenever the near test holds, the far contribution of the cell of q is
zero for any center-of-mass data. -/
theorem near_far_partition
    (invSqrt : ℚ → ℚ) (G : ℚ) (posArr : ℕ → Vec3) (massArr : ℕ → ℚ)
    (cellIdxArr : ℕ → ℕ) (cellCOMArr : ℕ → Vec3)
    (numParticles totalCells gridNx gridNy localSize k p q : ℕ)
    (hpow : localSize = 2 ^ k) (hp : p < numParticles) (hq : q < numParticles)
    (hne : q ≠ p)
    (hmass : ∀ i, i < numParticles → 0 < massArr i)
    (hcells : ∀ i, i < numParticles → cellIdxArr i < totalCells) :
    cellIdxArr q < totalCells
    ∧ massArr q ≤ computeCellCOM_cellMass massArr cellIdxArr numParticles localSize (cellIdxArr q)
    ∧ ((nearCond gridNx gridNy (cellIdxArr p) (cellIdxArr q) = true
        ∧ farProcessed (computeCellCOM_cellMass massArr cellIdxArr numParticles localSize)
            gridNx gridNy (cellIdxArr p) (cellIdxArr q) = false)
      ∨ (nearCond gridNx gridNy (cellIdxArr p) (cellIdxArr q) = false
        ∧ farProcessed (computeCellCOM_cellMass massArr cellIdxArr numParticles localSize)
            gridNx gridNy (cellIdxArr p) (cellIdxArr q) = true))
    ∧ (nearCond gridNx gridNy (cellIdxArr p) (cellIdxArr q) = true →
        farTerm invSqrt G gridNx gridNy
          (computeCellCOM_cellMass massArr cellIdxArr numParticles localSize)
          cellCOMArr (cellIdxArr p) (posArr p) (cellIdxArr q) = 0) := by
  have hagg : ∀ c, computeCellCOM_cellMass massArr cellIdxArr numParticles localSize c
      = ∑ i ∈ Finset.range numParticles, (if cellIdxArr i = c then massArr i else 0) :=
    fun c => aggregation_eq_sum _ numParticles localSize k hpow
  have hinc : massArr q ≤
      computeCellCOM_cellMass massArr cellIdxArr numParticles localSize (cellIdxArr q) := by
    rw [hagg]
    have hterm : (if cellIdxArr q = cellIdxArr q then massArr q else 0) = massArr q := if_pos rfl
    calc massArr q = _ := hterm.symm
      _ ≤ _ := by
        apply Finset.single_le_sum (f := fun i => if cellIdxArr i = cellIdxArr q then massArr i else 0)
        · intro i hi
          by_cases hc : cellIdxArr i = cellIdxArr q
          · rw [if_pos hc]
            exact le_of_lt (hmass i (Finset.mem_range.mp hi))
          · rw [if_neg hc]
        · exact Finset.mem_range.mpr hq
  have hpos : 0 < computeCellCOM_cellMass massArr cellIdxArr numParticles localSize (cellIdxArr q) :=
    lt_of_lt_of_le (hmass q hq) hinc
  refine ⟨hcells q hq, hinc, ?_, ?_⟩
  · cases hb : nearCond gridNx gridNy (cellIdxArr p) (cellIdxArr q) with
    | true =>
      left
      refine ⟨rfl, ?_⟩
      simp [farProcessed, hb]
    | false =>
      right
      refine ⟨rfl, ?_⟩
      simp [farProcessed, hb, not_le.mpr hpos]
  · intro hb
    unfold farTerm
    simp only [hb]
    split <;> simp

/-- Witness for C2 at a concrete input: two unit-mass particles in cells
0 and 1 of a 2x2x2 grid, aggregated with a single-thread work-group. -/
theorem near_far_partition_witness :
    (1 : ℕ) < 8
    ∧ (1 : ℚ) ≤ computeCellCOM_cellMass (fun _ => 1) (fun i => i) 2 1 1
    ∧ ((nearCond 2 2 0 1 = true
        ∧ farProcessed (computeCellCOM_cellMass (fun _ => 1) (fun i => i) 2 1) 2 2 0 1 = false)
      ∨ (nearCond 2 2 0 1 = false
        ∧ farProcessed (computeCellCOM_cellMass (fun _ => 1) (fun i => i) 2 1) 2 2 0 1 = true))
    ∧ (nearCond 2 2 0 1 = true →
        farTerm (fun _ => 0) 0 2 2 (computeCellCOM_cellMass (fun _ => 1) (fun i => i) 2 1)
          (fun _ => 0) 0 0 1 = 0) :=
  near_far_partition (fun _ => 0) 0 (fun _ => 0) (fun _ => 1) (fun i => i) (fun _ => 0)
    2 8 2 2 1 0 0 1 (by norm_num) (by norm_num) (by norm_num) (by norm_num)
    (fun i _ => by norm_num) (fun i hi => by show i < 8; omega)

/-- C5: the argument passed to the reciprocal square root is a sum of
squares plus the softening constant 0.001 and is therefore at least
0.001 and strictly positive for every input, including coincident
positions; and the far-field pass divides the stored mass-weighted sum
by the cell mass only behind the positivity guard, an empty cell (mass
at most 0) being skipped with zero contribution. -/
theorem softened_distance_empty_cell_skip
    (v position : Vec3) (invSqrt : ℚ → ℚ) (G : ℚ) (gridNx gridNy : ℕ)
    (cellMassArr : ℕ → ℚ) (cellCOMArr : ℕ → Vec3) (myCellIndex cellIndex : ℕ)
    (hempty : cellMassArr cellIndex ≤ 0) :
    softening ≤ distanceSquared v
    ∧ 0 < distanceSquared v
    ∧ softening = 1 / 1000
    ∧ farTerm invSqrt G gridNx gridNy cellMassArr cellCOMArr myCellIndex position cellIndex = 0 := by
  have hx := mul_self_nonneg v.x
  have hy := mul_self_nonneg v.y
  have hz := mul_self_nonneg v.z
  have hs : (0 : ℚ) < softening := by norm_num [softening]
  refine ⟨?_, ?_, rfl, ?_⟩
  · unfold distanceSquared
    linarith
  · unfold distanceSquared
    linarith
  · unfold farTerm
    simp [hempty]

/-- Witness for C5 at a concrete input: difference vector (1,2,3) and an
empty cell of mass 0. -/
theorem softened_distance_empty_cell_skip_witness :
    softening ≤ distanceSquared ⟨1, 2, 3⟩
    ∧ 0 < distanceSquared ⟨1, 2, 3⟩
    ∧ softening = 1 / 1000
    ∧ farTerm (fun _ => 0) 0 2 2 (fun _ => 0) (fun _ => 0) 0 0 1 = 0 :=
  softened_distance_empty_cell_skip ⟨1, 2, 3⟩ 0 (fun _ => 0) 0 2 2 (fun _ => 0)
    (fun _ => 0) 0 1 (by norm_num)

/-- Total acceleration accumulated by one lane of the update kernel: the
near-field pass followed by the far-field pass (GLinterop.cl lines 224
to 313). -/
def totalAcceleration (invSqrt : ℚ → ℚ) (G : ℚ)
    (numParticles totalCells gridNx gridNy : ℕ) (posArr : ℕ → Vec3)
    (massArr : ℕ → ℚ) (cellIdxArr : ℕ → ℕ) (cellMassArr : ℕ → ℚ)
    (cellCOMArr : ℕ → Vec3) (particleId : ℕ) : Vec3 :=
  nearFieldAcceleration invSqrt G numParticles gridNx gridNy posArr massArr cellIdxArr particleId
    + farFieldAcceleration invSqrt G totalCells gridNx gridNy cellMassArr cellCOMArr
        (cellIdxArr particleId) (posArr particleId)

/-- Per-particle state buffers of the simulation as the update kernel
sees them: interleaved position and velocity records, the mass array and
the cell index array, plus the active particle count. -/
structure SimState where
  numParticles : ℕ
  posArr : ℕ → Vec3
  velArr : ℕ → Vec3
  massArr : ℕ → ℚ
  cellIdxArr : ℕ → ℕ

/-- Kick-then-drift integration of one particle (GLinterop.cl lines 315
to 317): new velocity from the total acceleration, then new position
from the new velocity. Returns (newPosition, newVelocity). -/
def updateParticle (invSqrt : ℚ → ℚ) (G deltaTime : ℚ)
    (totalCells gridNx gridNy : ℕ) (cellMassArr : ℕ → ℚ) (cellCOMArr : ℕ → Vec3)
    (st : SimState) (particleId : ℕ) : Vec3 × Vec3 :=
  let acc := totalAcceleration invSqrt G st.numParticles totalCells gridNx gridNy
    st.posArr st.massArr st.cellIdxArr cellMassArr cellCOMArr particleId
  let newVelocity := st.velArr particleId + Vec3.scale deltaTime acc
  let newPosition := st.posArr particleId + Vec3.scale deltaTime newVelocity
  (newPosition, newVelocity)

/-- One lane of the update kernel as a state transformer: a lane whose
global id is at least numParticles returns at once (GLinterop.cl line
211) and a live lane overwrites exactly the position and velocity slots
of its own particle (lines 320 to 321). -/
def update (invSqrt : ℚ → ℚ) (G deltaTime : ℚ)
    (totalCells gridNx gridNy : ℕ) (cellMassArr : ℕ → ℚ) (cellCOMArr : ℕ → Vec3)
    (st : SimState) (particleId : ℕ) : SimState :=
  if particleId < st.numParticles then
    { st with
      posArr := Function.update st.posArr particleId
        (updateParticle invSqrt G deltaTime totalCells gridNx gridNy cellMassArr cellCOMArr st particleId).1
      velArr := Function.update st.velArr particleId
        (updateParticle invSqrt G deltaTime totalCells gridNx gridNy cellMassArr cellCOMArr st particleId).2 }
  else st

/-- Grid configuration of the host application (MyApp.h): 32 cells per
axis over the world box from -1 to 1 on each axis. -/
def MyApp.gridNx : ℕ := 32

def MyApp.gridNy : ℕ := 32

def MyApp.gridNz : ℕ := 32

def MyApp.totalCells : ℕ := MyApp.gridNx * MyApp.gridNy * MyApp.gridNz

def MyApp.worldMinX : ℚ := -1

def MyApp.worldMaxX : ℚ := 1

def MyApp.cellSizeX : ℚ := (MyApp.worldMaxX - MyApp.worldMinX) / (MyApp.gridNx : ℚ)

def MyApp.cellSizeInvX : ℚ := 1 / MyApp.cellSizeX

/-- Buffer capacity of the host application (MyApp.h). -/
def MyApp.maxParticles : ℕ := 50000

/-- Work-group size used for every dispatch (MyApp.h). -/
def MyApp.localSize : ℕ := 128

/-- Global size of the particle kernels: the capacity rounded up to a
multiple of the work-group size (MyApp.h). -/
def MyApp.globalParticles : ℕ :=
  (MyApp.maxParticles + MyApp.localSize - 1) / MyApp.localSize * MyApp.localSize

/-- Global size of the aggregation dispatch: one work-group of localSize
lanes per cell (MyApp.h). -/
def MyApp.globalCOM : ℕ := MyApp.totalCells * MyApp.localSize

/-- Cell a computeCellCOM work-group is responsible for: its group id
(GLinterop.cl line 96). -/
def computeCellCOM_cellOfGroup (groupId : ℕ) : ℕ := groupId

/-- Semantics of std::clamp as the host calls it. -/
def stdClamp (v lo hi : ℚ) : ℚ := if v < lo then lo else if hi < v then hi else v

/-- Delta time the host hands to the update kernel on a tick
(MyApp::Update): none when paused, otherwise the frame delta clamped
into the closed interval from 0.0000001 to 0.001 seconds. -/
def MyApp.updateDeltaTime (simulationPaused : Bool) (deltaTimeSec : ℚ) : Option ℚ :=
  if simulationPaused then none
  else some (stdClamp deltaTimeSec (1 / 10000000) (1 / 1000))

/-- C7: a live lane of the update kernel integrates kick-then-drift: the
velocity written back is the old velocity plus the total acceleration
times deltaTime, and the position written back is the old position plus
that newly updated velocity, not the old one, times deltaTime. -/
theorem update_kick_then_drift (invSqrt : ℚ → ℚ) (G deltaTime : ℚ)
    (totalCells gridNx gridNy : ℕ) (cellMassArr : ℕ → ℚ) (cellCOMArr : ℕ → Vec3)
    (st : SimState) (particleId : ℕ) (hid : particleId < st.numParticles) :
    (update invSqrt G deltaTime totalCells gridNx gridNy cellMassArr cellCOMArr st particleId).velArr particleId
      = st.velArr particleId + Vec3.scale deltaTime
          (totalAcceleration invSqrt G st.numParticles totalCells gridNx gridNy
            st.posArr st.massArr st.cellIdxArr cellMassArr cellCOMArr particleId)
    ∧ (update invSqrt G deltaTime totalCells gridNx gridNy cellMassArr cellCOMArr st particleId).posArr particleId
      = st.posArr particleId + Vec3.scale deltaTime
          (st.velArr particleId + Vec3.scale deltaTime
            (totalAcceleration invSqrt G st.numParticles totalCells gridNx gridNy
              st.posArr st.massArr st.cellIdxArr cellMassArr cellCOMArr particleId)) := by
  unfold update
  rw [if_pos hid]
  constructor
  · show Function.update st.velArr particleId _ particleId = _
    rw [Function.update_same]
    rfl
  · show Function.update st.posArr particleId _ particleId = _
    rw [Function.update_same]
    rfl

/-- Concrete single-particle state used by the integration and frame
witnesses. -/
def demoState : SimState := ⟨1, fun _ => 0, fun _ => 0, fun _ => 1, fun _ => 0⟩

/-- Witness for C7: one particle, every parameter instantiated. -/
theorem update_kick_then_drift_witness :
    (update (fun _ => 1) 1 1 1 1 1 (fun _ => 0) (fun _ => 0) demoState 0).velArr 0
      = demoState.velArr 0 + Vec3.scale 1
          (totalAcceleration (fun _ => 1) 1 demoState.numParticles 1 1 1
            demoState.posArr demoState.massArr demoState.cellIdxArr (fun _ => 0) (fun _ => 0) 0)
    ∧ (update (fun _ => 1) 1 1 1 1 1 (fun _ => 0) (fun _ => 0) demoState 0).posArr 0
      = demoState.posArr 0 + Vec3.scale 1
          (demoState.velArr 0 + Vec3.scale 1
            (totalAcceleration (fun _ => 1) 1 demoState.numParticles 1 1 1
              demoState.posArr demoState.massArr demoState.cellIdxArr (fun _ => 0) (fun _ => 0) 0)) :=
  update_kick_then_drift (fun _ => 1) 1 1 1 1 1 (fun _ => 0) (fun _ => 0) demoState 0
    (by norm_num [demoState])

/-- C9: one update lane writes only the position and velocity slots of
its own particle — every other slot of the position and velocity
buffers, the whole mass buffer, the whole cell index buffer and the
particle count are returned unchanged — and a lane whose id is at least
numParticles (such lanes exist: the host rounds the dispatch size 50000
up to 50048, a multiple of the work-group size 128) changes nothing at
all. -/
theorem update_frame_effect (invSqrt : ℚ → ℚ) (G deltaTime : ℚ)
    (totalCells gridNx gridNy : ℕ) (cellMassArr : ℕ → ℚ) (cellCOMArr : ℕ → Vec3)
    (st : SimState) (particleId otherId idleId : ℕ)
    (hother : otherId ≠ particleId) (hidle : st.numParticles ≤ idleId) :
    (update invSqrt G deltaTime totalCells gridNx gridNy cellMassArr cellCOMArr st particleId).posArr otherId
      = st.posArr otherId
    ∧ (update invSqrt G deltaTime totalCells gridNx gridNy cellMassArr cellCOMArr st particleId).velArr otherId
      = st.velArr otherId
    ∧ (update invSqrt G deltaTime totalCells gridNx gridNy cellMassArr cellCOMArr st particleId).massArr
      = st.massArr
    ∧ (update invSqrt G deltaTime totalCells gridNx gridNy cellMassArr cellCOMArr st particleId).cellIdxArr
      = st.cellIdxArr
    ∧ (update invSqrt G deltaTime totalCells gridNx gridNy cellMassArr cellCOMArr st particleId).numParticles
      = st.numParticles
    ∧ update invSqrt G deltaTime totalCells gridNx gridNy cellMassArr cellCOMArr st idleId = st
    ∧ MyApp.maxParticles < MyApp.globalParticles
    ∧ MyApp.globalParticles = 50048 := by
  have hglobal : MyApp.globalParticles = 50048 := by decide
  have hno : update invSqrt G deltaTime totalCells gridNx gridNy cellMassArr cellCOMArr st idleId = st := by
    unfold update
    rw [if_neg (by omega)]
  unfold update
  by_cases hlive : particleId < st.numParticles
  · rw [if_pos hlive]
    refine ⟨Function.update_noteq hother _ _, Function.update_noteq hother _ _,
      rfl, rfl, rfl, hno, by rw [hglobal]; decide, hglobal⟩
  · rw [if_neg hlive]
    exact ⟨rfl, rfl, rfl, rfl, rfl, hno, by rw [hglobal]; decide, hglobal⟩

/-- Witness for C9: lane 0 of the single-particle demo state leaves slot
1 untouched, and lane 1 is idle. -/
theorem update_frame_effect_witness :
    (update (fun _ => 1) 1 1 1 1 1 (fun _ => 0) (fun _ => 0) demoState 0).posArr 1
      = demoState.posArr 1
    ∧ (update (fun _ => 1) 1 1 1 1 1 (fun _ => 0) (fun _ => 0) demoState 0).velArr 1
      = demoState.velArr 1
    ∧ (update (fun _ => 1) 1 1 1 1 1 (fun _ => 0) (fun _ => 0) demoState 0).massArr
      = demoState.massArr
    ∧ (update (fun _ => 1) 1 1 1 1 1 (fun _ => 0) (fun _ => 0) demoState 0).cellIdxArr
      = demoState.cellIdxArr
    ∧ (update (fun _ => 1) 1 1 1 1 1 (fun _ => 0) (fun _ => 0) demoState 0).numParticles
      = demoState.numParticles
    ∧ update (fun _ => 1) 1 1 1 1 1 (fun _ => 0) (fun _ => 0) demoState 1 = demoState
    ∧ MyApp.maxParticles < MyApp.globalParticles
    ∧ MyApp.globalParticles = 50048 :=
  update_frame_effect (fun _ => 1) 1 1 1 1 1 (fun _ => 0) (fun _ => 0) demoState 0 1 1
    (by norm_num) (by norm_num [demoState])

/-- C8: on a tick that is not paused the host passes the frame delta
clamped into the closed interval from 0.0000001 to 0.001 seconds to the
update kernel, a strictly positive value whatever frame time the caller
supplies. -/
theorem updateDeltaTime_clamped (deltaTimeSec : ℚ) :
    MyApp.updateDeltaTime false deltaTimeSec
      = some (stdClamp deltaTimeSec (1 / 10000000) (1 / 1000))
    ∧ 1 / 10000000 ≤ stdClamp deltaTimeSec (1 / 10000000) (1 / 1000)
    ∧ stdClamp deltaTimeSec (1 / 10000000) (1 / 1000) ≤ 1 / 1000
    ∧ 0 < stdClamp deltaTimeSec (1 / 10000000) (1 / 1000) := by
  have hlo : 1 / 10000000 ≤ stdClamp deltaTimeSec (1 / 10000000) (1 / 1000) := by
    unfold stdClamp
    split_ifs with h1 h2
    · norm_num
    · norm_num
    · linarith [not_lt.mp h1]
  have hhi : stdClamp deltaTimeSec (1 / 10000000) (1 / 1000) ≤ 1 / 1000 := by
    unfold stdClamp
    split_ifs with h1 h2
    · norm_num
    · norm_num
    · linarith [not_lt.mp h2]
  exact ⟨rfl, hlo, hhi, lt_of_lt_of_le (by norm_num) hlo⟩

/-- C10: the aggregation dispatch runs totalCells times localSize lanes
in work-groups of localSize, so there is exactly one work-group per grid
cell, the group id read as the cell id covers every cell in the range
exactly once, and the work-group size is the power of two 2 ^ 7. -/
theorem com_dispatch_covers_cells :
    MyApp.globalCOM = MyApp.totalCells * MyApp.localSize
    ∧ MyApp.globalCOM / MyApp.localSize = MyApp.totalCells
    ∧ MyApp.globalCOM % MyApp.localSize = 0
    ∧ MyApp.localSize = 2 ^ 7
    ∧ (Finset.range (MyApp.globalCOM / MyApp.localSize)).image computeCellCOM_cellOfGroup
        = Finset.range MyApp.totalCells := by
  have hdiv : MyApp.globalCOM / MyApp.localSize = MyApp.totalCells := by decide
  refine ⟨rfl, hdiv, by decide, by decide, ?_⟩
  rw [hdiv]
  exact Finset.image_id'

/-- C cast of a float value to int as the computeParticleCellIndex
kernel performs it (GLinterop.cl lines 40 to 42): truncation toward
zero, the ceiling for negative values and the floor otherwise. -/
def castToInt (q : ℚ) : ℤ := if q < 0 then ⌈q⌉ else ⌊q⌋

/-- OpenCL integer clamp: min(max(v, lo), hi). -/
def intClamp (v lo hi : ℤ) : ℤ := min (max v lo) hi

/-- Per-axis cell coordinate of the computeParticleCellIndex kernel
(GLinterop.cl lines 40 to 47): cast of (pos - worldMin) * cellSizeInv to
int, clamped into the range from 0 to axisCells - 1. -/
def cellCoord (p worldMin cellSizeInv : ℚ) (axisCells : ℤ) : ℤ :=
  intClamp (castToInt ((p - worldMin) * cellSizeInv)) 0 (axisCells - 1)

/-- Flattened cell index written by the computeParticleCellIndex kernel
for one particle (GLinterop.cl lines 19 to 51). -/
def computeParticleCellIndex (position : Vec3) (gridNx gridNy gridNz : ℤ)
    (cellSizeInvX cellSizeInvY cellSizeInvZ worldMinX worldMinY worldMinZ : ℚ) : ℤ :=
  cellCoord position.x worldMinX cellSizeInvX gridNx
    + cellCoord position.y worldMinY cellSizeInvY gridNy * gridNx
    + cellCoord position.z worldMinZ cellSizeInvZ gridNz * gridNx * gridNy

/-- Modelled from the spec: the per-axis coordinate the specification
states, floor of (pos - worldMin) * invCellSize clamped independently
into the range from 0 to axisCellCount - 1. -/
def specCellCoord (p worldMin cellSizeInv : ℚ) (axisCells : ℤ) : ℤ :=
  intClamp ⌊(p - worldMin) * cellSizeInv⌋ 0 (axisCells - 1)

theorem intClamp_castToInt_eq_floor (q : ℚ) (hi : ℤ) :
    intClamp (castToInt q) 0 hi = intClamp ⌊q⌋ 0 hi := by
  unfold castToInt intClamp
  by_cases h : q < 0
  · rw [if_pos h]
    have hc : (⌈q⌉ : ℤ) ≤ 0 := Int.ceil_le.mpr (by exact_mod_cast h.le)
    have hf : (⌊q⌋ : ℤ) ≤ 0 := Int.floor_nonpos h.le
    rw [max_eq_right hc, max_eq_right hf]
  · rw [if_neg h]

theorem intClamp_mem (v lo hi : ℤ) (h : lo ≤ hi) :
    lo ≤ intClamp v lo hi ∧ intClamp v lo hi ≤ hi :=
  ⟨le_min (le_max_right v lo) h, min_le_right _ _⟩

theorem cellCoord_mem (p mn inv : ℚ) (N : ℤ) (hN : 0 < N) :
    0 ≤ cellCoord p mn inv N ∧ cellCoord p mn inv N ≤ N - 1 :=
  intClamp_mem _ 0 (N - 1) (by omega)

/-- C4: for every input position and strictly positive cell counts, the
written index is the flattening x + y * Nx + z * Nx * Ny of the per-axis
floor-and-clamp coordinates the spec states (the cast to int truncates
toward zero, but below the lower clamp bound 0 that difference is
erased), the index always lies between 0 and Nx * Ny * Nz - 1, and on
any axis whose inverse cell size is axisCells / (worldMax - worldMin) a
coordinate at or beyond worldMax receives the last valid cell
coordinate axisCells - 1 — no particle is dropped. -/
theorem computeParticleCellIndex_spec
    (position : Vec3) (gridNx gridNy gridNz : ℤ)
    (cellSizeInvX cellSizeInvY cellSizeInvZ worldMinX worldMinY worldMinZ : ℚ)
    (hnx : 0 < gridNx) (hny : 0 < gridNy) (hnz : 0 < gridNz)
    (pcoord mn mx inv : ℚ) (axisCells : ℤ)
    (haxis : 0 < axisCells) (hworld : mn < mx)
    (hinv : inv = (axisCells : ℚ) / (mx - mn)) (hbeyond : mx ≤ pcoord) :
    computeParticleCellIndex position gridNx gridNy gridNz
        cellSizeInvX cellSizeInvY cellSizeInvZ worldMinX worldMinY worldMinZ
      = specCellCoord position.x worldMinX cellSizeInvX gridNx
        + specCellCoord position.y worldMinY cellSizeInvY gridNy * gridNx
        + specCellCoord position.z worldMinZ cellSizeInvZ gridNz * gridNx * gridNy
    ∧ 0 ≤ computeParticleCellIndex position gridNx gridNy gridNz
        cellSizeInvX cellSizeInvY cellSizeInvZ worldMinX worldMinY worldMinZ
    ∧ computeParticleCellIndex position gridNx gridNy gridNz
        cellSizeInvX cellSizeInvY cellSizeInvZ worldMinX worldMinY worldMinZ
      < gridNx * gridNy * gridNz
    ∧ cellCoord pcoord mn inv axisCells = axisCells - 1 := by
  obtain ⟨hx0, hxU⟩ := cellCoord_mem position.x worldMinX cellSizeInvX gridNx hnx
  obtain ⟨hy0, hyU⟩ := cellCoord_mem position.y worldMinY cellSizeInvY gridNy hny
  obtain ⟨hz0, hzU⟩ := cellCoord_mem position.z worldMinZ cellSizeInvZ gridNz hnz
  refine ⟨?_, ?_, ?_, ?_⟩
  · unfold computeParticleCellIndex cellCoord specCellCoord
    rw [intClamp_castToInt_eq_floor, intClamp_castToInt_eq_floor, intClamp_castToInt_eq_floor]
  · unfold computeParticleCellIndex
    have h1 : 0 ≤ cellCoord position.y worldMinY cellSizeInvY gridNy * gridNx :=
      mul_nonneg hy0 (by omega)
    have h2 : 0 ≤ cellCoord position.z worldMinZ cellSizeInvZ gridNz * gridNx * gridNy :=
      mul_nonneg (mul_nonneg hz0 (by omega)) (by omega)
    linarith
  · unfold computeParticleCellIndex
    have h1 : cellCoord position.y worldMinY cellSizeInvY gridNy * gridNx
        ≤ (gridNy - 1) * gridNx :=
      mul_le_mul_of_nonneg_right hyU (by omega)
    have h2 : cellCoord position.z worldMinZ cellSizeInvZ gridNz * gridNx * gridNy
        ≤ (gridNz - 1) * gridNx * gridNy :=
      mul_le_mul_of_nonneg_right (mul_le_mul_of_nonneg_right hzU (by omega)) (by omega)
    have hring : (gridNx - 1) + (gridNy - 1) * gridNx + (gridNz - 1) * gridNx * gridNy
        = gridNx * gridNy * gridNz - 1 := by ring
    linarith
  · have hpos : (0 : ℚ) < mx - mn := by linarith
    have hNq : (0 : ℚ) < (axisCells : ℚ) := by exact_mod_cast haxis
    have hinv0 : 0 ≤ inv := by
      rw [hinv]
      exact div_nonneg hNq.le hpos.le
    have hv : (axisCells : ℚ) ≤ (pcoord - mn) * inv := by
      have hstep : (mx - mn) * inv = (axisCells : ℚ) := by
        rw [hinv]
        field_simp
      calc (axisCells : ℚ) = (mx - mn) * inv := hstep.symm
        _ ≤ (pcoord - mn) * inv := mul_le_mul_of_nonneg_right (by linarith) hinv0
    have hfl : axisCells ≤ ⌊(pcoord - mn) * inv⌋ := Int.le_floor.mpr hv
    have hnneg : ¬ (pcoord - mn) * inv < 0 := by
      intro hcon
      have hlt : (axisCells : ℚ) < 0 := lt_of_le_of_lt hv hcon
      have : axisCells < 0 := by exact_mod_cast hlt
      omega
    unfold cellCoord castToInt intClamp
    rw [if_neg hnneg,
      max_eq_left (by omega : (0 : ℤ) ≤ ⌊(pcoord - mn) * inv⌋),
      min_eq_right (by omega : axisCells - 1 ≤ ⌊(pcoord - mn) * inv⌋)]

/-- Witness for C4: the host grid values (32 cells, world from -1 to 1,
inverse cell size 16) and a particle at (3/2, 0, -3), outside the world
box on two axes; the generic axis instance takes the coordinate 2,
beyond worldMax = 1. -/
theorem computeParticleCellIndex_spec_witness :
    computeParticleCellIndex ⟨3 / 2, 0, -3⟩ 32 32 32 16 16 16 (-1) (-1) (-1)
      = specCellCoord (3 / 2) (-1) 16 32
        + specCellCoord 0 (-1) 16 32 * 32
        + specCellCoord (-3) (-1) 16 32 * 32 * 32
    ∧ 0 ≤ computeParticleCellIndex ⟨3 / 2, 0, -3⟩ 32 32 32 16 16 16 (-1) (-1) (-1)
    ∧ computeParticleCellIndex ⟨3 / 2, 0, -3⟩ 32 32 32 16 16 16 (-1) (-1) (-1)
      < 32 * 32 * 32
    ∧ cellCoord 2 (-1) 16 32 = 32 - 1 :=
  computeParticleCellIndex_spec ⟨3 / 2, 0, -3⟩ 32 32 32 16 16 16 (-1) (-1) (-1)
    (by norm_num) (by norm_num) (by norm_num) 2 (-1) 1 16 32
    (by norm_num) (by norm_num) (by norm_num) (by norm_num)

/-- Grid configuration fields the host class declares (MyApp.h lines 69
to 91): per-axis cell counts and world bounds. In the source these are
member initializers with fixed values; the structure makes the values
reset and initialization would have to validate explicit. -/
structure MyAppConfig where
  gridNx : ℤ
  gridNy : ℤ
  gridNz : ℤ
  worldMinX : ℚ
  worldMaxX : ℚ
  worldMinY : ℚ
  worldMaxY : ℚ
  worldMinZ : ℚ
  worldMaxZ : ℚ
deriving DecidableEq

/-- Outcome of MyApp::ResetSimulation that is visible to the simulation
pipeline: the active particle count and the mass buffer. -/
structure ResetState where
  currentNumParticles : ℕ
  massBuffer : List ℚ
deriving DecidableEq

/-- The configuration values compiled into MyApp.h: 32 cells on each
axis, world bounds -1 to 1 on each axis. -/
def MyApp.sourceConfig : MyAppConfig := ⟨32, 32, 32, -1, 1, -1, 1, -1, 1⟩

/-- An invalid configuration in the sense of the spec error taxonomy:
cell count 0 on the x axis and degenerate world bounds with
min = max. -/
def MyApp.invalidConfig : MyAppConfig := ⟨0, 32, 32, 1, 1, -1, 1, -1, 1⟩

/-- MyApp::ResetSimulation (the part visible to the pipeline): sets the
active count to the requested particle count and fills the mass buffer
with the constant 1.0f for every particle. The function reads no grid
configuration field and contains no validity check of any kind; the
randomized position and velocity generators, which depend on an external
RNG and feed only the rendering buffers, are omitted from the model. -/
def MyApp.ResetSimulation (cfg : MyAppConfig) (numParticles : ℕ) : ResetState :=
  { currentNumParticles := numParticles
    massBuffer := List.replicate numParticles 1 }

/-- C6 counterexample: reset run against a configuration that is invalid
in every sense the claim lists (cell count 0, world bounds with
min = max) does not fail — it proceeds and produces a fully populated
state, the same one as for any configuration. -/
theorem reset_accepts_invalid_config :
    MyApp.invalidConfig.gridNx ≤ 0
    ∧ MyApp.invalidConfig.worldMaxX ≤ MyApp.invalidConfig.worldMinX
    ∧ MyApp.ResetSimulation MyApp.invalidConfig 4
        = { currentNumParticles := 4, massBuffer := [1, 1, 1, 1] } := by
  refine ⟨by norm_num [MyApp.invalidConfig], by norm_num [MyApp.invalidConfig], rfl⟩

/-- C6 amended: initialization/reset performs no validation and has no
failure path — for every configuration and count it proceeds, restoring
the requested active count and all-ones (strictly positive) masses; the
configuration compiled into the source is valid (positive cell counts,
min strictly below max on every axis), which is why invalid values never
reach the pipeline. -/
theorem reset_proceeds_unconditionally (cfg : MyAppConfig) (numParticles : ℕ) :
    MyApp.ResetSimulation cfg numParticles
      = { currentNumParticles := numParticles, massBuffer := List.replicate numParticles 1 }
    ∧ ((MyApp.ResetSimulation cfg numParticles).massBuffer.all fun m => decide (0 < m)) = true
    ∧ (MyApp.ResetSimulation cfg numParticles).currentNumParticles = numParticles
    ∧ 0 < MyApp.sourceConfig.gridNx ∧ 0 < MyApp.sourceConfig.gridNy
    ∧ 0 < MyApp.sourceConfig.gridNz
    ∧ MyApp.sourceConfig.worldMinX < MyApp.sourceConfig.worldMaxX
    ∧ MyApp.sourceConfig.worldMinY < MyApp.sourceConfig.worldMaxY
    ∧ MyApp.sourceConfig.worldMinZ < MyApp.sourceConfig.worldMaxZ := by
  refine ⟨rfl, ?_, rfl, by norm_num [MyApp.sourceConfig], by norm_num [MyApp.sourceConfig],
    by norm_num [MyApp.sourceConfig], by norm_num [MyApp.sourceConfig],
    by norm_num [MyApp.sourceConfig], by norm_num [MyApp.sourceConfig]⟩
  simp only [MyApp.ResetSimulation, List.all_eq_true]
  intro m hm
  rw [List.eq_of_mem_replicate hm]
  norm_num

end NBody
